import Mathlib

/-!
Verification of the job-specification and result-aggregation layer of the
hicbem benchmark (`benchapps.py`).  Python functions are shallowly embedded:
strings are Lean `String`s handled at the `List Char` level, Python floats
are modelled as exact fractions (`Frac`), fallible code returns `Except`,
and the filesystem is explicit state.  Helpers imported from `benchutils`
and `benchevals` (files absent from the sources) are modelled from the
spec; each such definition is marked `Modelled from the spec:`.
-/

namespace Benchapps

/-! ## Python string primitives -/

/-- Python whitespace characters recognised by `str.split(None)`,
`str.lstrip()` and `str.rstrip()`. -/
def pyWs (c : Char) : Bool :=
  c == ' ' || c == '\t' || c == '\n' || c == '\r' || c == '\x0b' || c == '\x0c'

/-- Python `str.lstrip()` on a character list. -/
def lstripL (l : List Char) : List Char := l.dropWhile pyWs

/-- Python `str.rstrip()` on a character list. -/
def rstripL (l : List Char) : List Char := (l.reverse.dropWhile pyWs).reverse

/-- Python `str.split(None, maxsplit)` on a character list: leading
whitespace is skipped, tokens are maximal non-whitespace runs, and once
`maxsplit` splits were made the remainder (with its leading whitespace
dropped but otherwise verbatim, trailing whitespace included) is the last
element. -/
def splitWsL : Nat → List Char → List (List Char)
  | 0, s =>
    let s1 := s.dropWhile pyWs
    if s1.isEmpty then [] else [s1]
  | m + 1, s =>
    let s1 := s.dropWhile pyWs
    if s1.isEmpty then []
    else s1.takeWhile (fun c => !(pyWs c)) :: splitWsL m (s1.dropWhile (fun c => !(pyWs c)))

/-- Python `str.split(None, maxsplit)` on strings. -/
def pySplitWs (s : String) (maxsplit : Nat) : List String :=
  (splitWsL maxsplit s.data).map String.mk

/-- Python `str.lstrip()`. -/
def pyLstrip (s : String) : String := String.mk (lstripL s.data)

/-- Python `str.rstrip()`. -/
def pyRstrip (s : String) : String := String.mk (rstripL s.data)

/-- Index of the first occurrence of `sub` in the haystack starting at
offset `i`, if any (helper for Python `str.find`). -/
def findSubIdx : List Char → List Char → Nat → Option Nat
  | [], sub, i => if sub.isEmpty then some i else none
  | c :: rest, sub, i =>
    if sub.isPrefixOf (c :: rest) then some i else findSubIdx rest sub (i + 1)

/-- Python `str.find`: index of the first occurrence of `sub` in `s`,
`-1` when absent. -/
def pyFind (s sub : String) : Int :=
  match findSubIdx s.data sub.data 0 with
  | some i => (i : Int)
  | none => -1

/-- Python `os.path.split(p)[1]` (basename): everything after the last
`'/'`. -/
def basenameL (l : List Char) : List Char :=
  (l.reverse.takeWhile (fun c => !(c == '/'))).reverse

/-- Python `os.path.splitext` on a basename: split at the last `'.'`
unless the stem before it would consist solely of dots (so `.bashrc`
keeps its leading-dot name whole). -/
def splitextL (l : List Char) : List Char × List Char :=
  let tlen := (l.reverse.takeWhile (fun c => !(c == '.'))).length
  if tlen = l.length then (l, [])
  else
    let stem := l.take (l.length - tlen - 1)
    if stem.all (fun c => c == '.') then (l, [])
    else (stem, l.drop (l.length - tlen - 1))

/-! ## Exact rationals without normalization

Python floats are modelled as exact fractions.  `Rat` normalizes with
`Nat.gcd`, which the kernel cannot reduce, so concrete runs of the
embedded code could not be evaluated by `decide`; instead we use raw
`num/den` pairs whose operations never normalize.  Every fraction built
by the embedding has a positive denominator.  `Frac.val` gives the
mathematical value for specification-level statements. -/

structure Frac where
  num : Int
  den : Nat
  deriving DecidableEq, Repr

namespace Frac

/-- The rational value of a fraction. -/
def val (a : Frac) : ℚ := (a.num : ℚ) / (a.den : ℚ)

/-- Embed an integer numerator over denominator 1. -/
def ofInt (n : Int) : Frac := ⟨n, 1⟩

/-- Embed a natural number. -/
def ofNat (n : Nat) : Frac := ⟨(n : Int), 1⟩

def add (a b : Frac) : Frac := ⟨a.num * b.den + b.num * a.den, a.den * b.den⟩

def sub (a b : Frac) : Frac := ⟨a.num * b.den - b.num * a.den, a.den * b.den⟩

def mul (a b : Frac) : Frac := ⟨a.num * b.num, a.den * b.den⟩

/-- Division; keeps the denominator nonnegative by moving the divisor's
sign to the numerator. -/
def div (a b : Frac) : Frac :=
  if 0 ≤ b.num then ⟨a.num * (b.den : Int), a.den * b.num.natAbs⟩
  else ⟨-(a.num * (b.den : Int)), a.den * b.num.natAbs⟩

/-- Value comparison `a ≤ b`, by cross multiplication (correct for the
positive denominators the embedding produces). -/
def ble (a b : Frac) : Bool := a.num * b.den ≤ b.num * a.den

/-- Value comparison `a < b`, by cross multiplication. -/
def blt (a b : Frac) : Bool := a.num * b.den < b.num * a.den

/-- Value equality, by cross multiplication. -/
def beq (a b : Frac) : Bool := a.num * b.den = b.num * a.den

/-- Value-level minimum (Python `min` semantics on numbers). -/
def fmin (a b : Frac) : Frac := if ble a b then a else b

/-- Value-level maximum. -/
def fmax (a b : Frac) : Frac := if ble a b then b else a

/-- Floor of the value. -/
def floor (a : Frac) : Int := a.num.fdiv (a.den : Int)

end Frac

/-- Accumulate a decimal digit list into a natural number. -/
def natOfDigits (l : List Char) : Nat :=
  l.foldl (fun a c => a * 10 + (c.toNat - 48)) 0

/-- Python `float(...)` restricted to plain unsigned decimal literals
(`digits`, `digits.digits`, `.digits`, `digits.`); anything else is a
`ValueError`, modelled as `none`.  Exponents/inf/nan never occur in the
resource logs. -/
def parseUDec (l : List Char) : Option Frac :=
  let ip := l.takeWhile Char.isDigit
  let rest := l.dropWhile Char.isDigit
  match rest with
  | [] => if ip.isEmpty then none else some (Frac.ofNat (natOfDigits ip))
  | '.' :: fr =>
    let fd := fr.takeWhile Char.isDigit
    if (fr.dropWhile Char.isDigit).isEmpty && !(ip.isEmpty && fd.isEmpty) then
      some ⟨(natOfDigits ip * 10 ^ fd.length + natOfDigits fd : Nat), 10 ^ fd.length⟩
    else none
  | _ => none

/-- Python `float(...)` with an optional sign. -/
def parseFloat (s : String) : Option Frac :=
  match s.data with
  | '-' :: r => (parseUDec r).map (fun q => ⟨-q.num, q.den⟩)
  | '+' :: r => parseUDec r
  | r => parseUDec r

/-- Round the value to the nearest integer, ties to even — the rounding
used by Python `'{:.Nf}'.format`. -/
def roundHalfEven (q : Frac) : Int :=
  let d := (q.den : Int)
  let f := q.num.fdiv d
  let r2 := 2 * (q.num - f * d)
  if r2 < d then f
  else if d < r2 then f + 1
  else if f % 2 = 0 then f else f + 1

/-- Left-pad a numeral with zeros to `n` digits. -/
def padZeros (s : String) (n : Nat) : String :=
  String.mk (List.replicate (n - s.length) '0') ++ s

/-- Python `'{:.precf}'.format q`: fixed-point decimal rendering of the
value with `prec` fractional digits, rounding half to even. -/
def formatF (prec : Nat) (q : Frac) : String :=
  let n := roundHalfEven (Frac.mul q ⟨(10 ^ prec : Nat), 1⟩)
  let m := n.natAbs
  let ip := m / 10 ^ prec
  let fp := m % 10 ^ prec
  (if n < 0 then "-" else "") ++ Nat.repr ip ++ "." ++ padZeros (Nat.repr fp) prec

/-! ## Constants and helpers from `benchutils` / `benchevals`

The files `benchutils.py` and `benchevals.py` are imported by
`benchapps.py` but absent from the sources, so the constants and helper
functions below are modelled from the spec. -/

/-- Modelled from the spec: `_RESDIR` (benchevals), the results root
directory; claims never depend on its concrete value. -/
def RESDIR : String := "results/"

/-- Modelled from the spec: `_CLSDIR` (benchevals), the clusters
subdirectory inside an algorithm's results directory. -/
def CLSDIR : String := "clusters/"

/-- Modelled from the spec: `_EXTEXECTIME` (benchevals), extension of the
per-algorithm resource-consumption log. -/
def EXTEXECTIME : String := ".rcp"

/-- Modelled from the spec: `_EXTAGGRES` (benchevals), extension of the
compact aggregated report. -/
def EXTAGGRES : String := ".res"

/-- Modelled from the spec: `_EXTAGGRESEXT` (benchevals), extension of the
extended aggregated report. -/
def EXTAGGRESEXT : String := ".resx"

/-- Modelled from the spec: `_SEPNAMEPART` (benchevals), separator between
the algorithm name and the task name in a job name. -/
def SEPNAMEPART : String := "/"

/-- Modelled from the spec: `_SEPPARS` (benchutils), the separator symbol
prepended to a swept parameter embedded in a task name. -/
def SEPPARS : String := "!"

/-- `.log` extension (`_EXTLOG` in `benchapps.py`). -/
def EXTLOG : String := ".log"

/-- `.elog` extension (`_EXTELOG` in `benchapps.py`). -/
def EXTELOG : String := ".elog"

/-- Separator characters that start a task-name suffix: `'#'` introduces a
path id; `'^'`, `'!'` and `'.'` introduce instance, parameter and shuffle
suffixes (Modelled from the spec: `delPathSuffix`'s naming convention). -/
def sepChar (full : Bool) (c : Char) : Bool :=
  c == '#' || (full && (c == '^' || c == '!' || c == '.'))

/-- Modelled from the spec: `delPathSuffix` (benchutils) strips any
trailing path-id suffix from a name, and with `full` also the
instance/parameter/shuffle suffixes; modelled as the longest prefix free
of the suffix separators.  The result is always a prefix of the input. -/
def delPathSuffixL (full : Bool) (l : List Char) : List Char :=
  l.takeWhile (fun c => !(sepChar full c))

/-- `delPathSuffix` on strings. -/
def delPathSuffix (s : String) (full : Bool) : String :=
  String.mk (delPathSuffixL full s.data)

/-- Modelled from the spec: `parseName(task, True)[0]` (benchutils), the
base name of a task (before any suffix). -/
def parseNameBase (task : String) : String :=
  String.mk (delPathSuffixL true task.data)

/-- Modelled from the spec: `parseName(task, True)[2]` (benchutils), the
instance-id part of a task name (the `'^'`-prefixed digit run). -/
def parseNameInst (task : String) : String :=
  String.mk ((task.data.dropWhile (fun c => !(c == '^'))).takeWhile
    (fun c => c == '^' || c.isDigit))

/-- Modelled from the spec: `ItemsStatistic` (benchutils), the
incremental min/max/sum/avg tracker of §4.4 (StatAccumulator).  The
constructor seeds the bounds and starts with zero samples; `add` updates
count, running sum, min and max; `fix` computes `avg = sum/count` and
marks the statistic finalized. -/
structure ItemsStatistic where
  sname : String
  count : Nat
  sum : Frac
  min : Frac
  max : Frac
  avg : Frac
  fixed : Bool
  deriving DecidableEq, Repr

/-- Constructor `ItemsStatistic(name, min0, max0)`. -/
def ItemsStatistic.init (nm : String) (min0 max0 : Frac) : ItemsStatistic :=
  ⟨nm, 0, Frac.ofNat 0, min0, max0, Frac.ofNat 0, false⟩

/-- `ItemsStatistic.add(val)`: O(1) update of count, sum, min, max. -/
def ItemsStatistic.add (st : ItemsStatistic) (v : Frac) : ItemsStatistic :=
  { st with
    count := st.count + 1
    sum := Frac.add st.sum v
    min := Frac.fmin st.min v
    max := Frac.fmax st.max v }

/-- `ItemsStatistic.fix()`: computes the average and marks it valid. -/
def ItemsStatistic.fix (st : ItemsStatistic) : ItemsStatistic :=
  { st with avg := Frac.div st.sum (Frac.ofNat st.count), fixed := true }

/-! ## `funcToAppName` (benchapps.py:196) -/

/-- Fetch the application name from the executing function's name: the
source asserts `funcname.startswith('exec')` and returns the remainder.
The assertion is modelled by returning the input unchanged when the
prefix is absent (never exercised: every call site passes an
`exec...`-named literal). -/
def funcToAppName (funcname : String) : String :=
  if "exec".data.isPrefixOf funcname.data then String.mk (funcname.data.drop 4)
  else funcname

/-! ## `PyBin` (benchapps.py:264) -/

/-- Interpreter selection `PyBin.bestof(pypy, v3)` (benchapps.py:289).
The one-time probe results `PyBin._pypy3/_pypy/_python3` are `None` or
the literal command names `'pypy3'/'pypy'/'python3'`; they are modelled
as three booleans (`true` = detected).  `pyexec` is `PYEXEC`, the full
path of the currently running interpreter. -/
def bestof (hasPypy3 hasPypy hasPython3 : Bool) (pyexec : String)
    (pypy v3 : Bool) : String :=
  let pybin := pyexec
  let pyname := String.mk (basenameL pyexec.data)
  if pypy && v3 && hasPypy3 then
    if pyFind pyname "pypy3" == -1 then "pypy3" else pybin
  else if pypy && hasPypy then
    if pyFind pyname "pypy" == -1 || pyFind pyname "pypy" == pyFind pyname "pypy3" then
      "pypy"
    else pybin
  else if v3 && hasPython3 then
    if pyFind pyname "python3" == -1 then "python3" else pybin
  else if pyFind pyname "python" == -1 || pyFind pyname "python" == pyFind pyname "python3" then
    "python"
  else pybin

/-! ## Job builders

A `Job` mirrors the fields of `utils.mpepool.Job` that the claims touch;
the argument vector (built with `os.path.relpath`) is outside every
claim and omitted.  Builders return the submitted jobs, the output
directories prepared via `prepareResDir`, and the function's return
value, so that "jobs submitted" and "directories prepared" can be
compared with the count the builder reports. -/

structure Job where
  name : String
  workdir : String
  timeout : Nat
  category : String
  size : Nat
  stdout : String
  stderr : String
  deriving DecidableEq, Repr

/-- Python truthiness of the tri-state `asym` parameter: `not asym` is
true for both `None` and `False`. -/
def pyNotOptBool (b : Option Bool) : Bool :=
  match b with
  | some true => false
  | _ => true

/-- Network size heuristic shared by every builder
(e.g. benchapps.py:335-338, 414-417): `netsize = os.path.getsize(netfile);
if not asym: netsize *= 2`. -/
def netsizeOf (rawsize : Nat) (asym : Option Bool) : Nat :=
  if pyNotOptBool asym then rawsize * 2 else rawsize

/-- Task name derivation shared by the builders:
`os.path.splitext(os.path.split(netfile)[1])[0]`. -/
def taskOf (netfile : String) : String :=
  String.mk (splitextL (basenameL netfile.data)).1

/-- Resulting directory computed by `prepareResDir` (benchapps.py:207):
`<_RESDIR><appname>/<_CLSDIR><taskdir><pathid>` where `taskdir` inserts
the instance segment when `odir` is set. -/
def prepResDirPath (appname task : String) (odir : Bool) (pathid : String) : String :=
  let taskdir := if odir then parseNameBase task ++ parseNameInst task ++ "/" ++ task
    else task
  RESDIR ++ appname ++ "/" ++ CLSDIR ++ taskdir ++ pathid

/-- Result of a builder invocation: submitted jobs, prepared output
directories (arguments of the successive `prepareResDir` calls, in
order), and the value the builder returns. -/
structure BuildRun where
  jobs : List Job
  prepared : List String
  ret : Nat
  deriving Repr

/-- `execLouvainIg` (benchapps.py:313): a single job; the embedding keeps
the parameter validation (`netfile` non-empty, non-empty derived task
name) as `Except` errors. -/
def execLouvainIg (rawsize : Nat) (netfile : String) (asym : Option Bool)
    (odir : Bool) (timeout : Nat) (pathid : String) (workdir : String) :
    Except String BuildRun :=
  if netfile = "" then .error "Invalid input parameters"
  else
    let netsize := netsizeOf rawsize asym
    let task := taskOf netfile
    if task = "" then .error "The network name should exists"
    else
      let algname := funcToAppName "execLouvainIg"
      let taskpath := prepResDirPath algname task odir pathid
      let errfile := taskpath ++ EXTELOG
      let logfile := taskpath ++ EXTLOG
      .ok ⟨[⟨algname ++ SEPNAMEPART ++ task, workdir, timeout, algname, netsize,
            logfile, errfile⟩], [taskpath], 1⟩

/-- Clique-size range of `execScp`: `kmin = 3`. -/
def scpKmin : Nat := 3

/-- Clique-size range of `execScp`: `kmax = 8`. -/
def scpKmax : Nat := 8

/-- Task name with the swept parameter embedded, common to the sweep
builders (benchapps.py:464-466 and 737-739): the parameter tag is
inserted between the task base and its suffix, `taskbasex + _SEPPARS +
tag + tasksuf`. -/
def sweepTask (task tag : String) : String :=
  let taskbasex := delPathSuffix task true
  let tasksuf := task.drop taskbasex.length
  taskbasex ++ SEPPARS ++ tag ++ tasksuf

/-- `execScp` (benchapps.py:409): one job and one prepared directory per
clique size `k` in `range(kmin, kmax + 1)`; returns `kmax + 1 - kmin`. -/
def execScp (rawsize : Nat) (netfile : String) (asym : Option Bool)
    (odir : Bool) (timeout : Nat) (pathid : String) (workdir : String) :
    Except String BuildRun :=
  if netfile = "" then .error "Invalid input parameters"
  else
    let netsize := netsizeOf rawsize asym
    let task := taskOf netfile
    if task = "" then .error "The network name should exists"
    else
      let algname := funcToAppName "execScp"
      let items := (List.range' scpKmin (scpKmax + 1 - scpKmin)).map (fun k =>
        let kstrex := "k" ++ Nat.repr k
        let ktask := sweepTask task kstrex
        let taskpath := prepResDirPath algname ktask odir pathid
        (Job.mk (algname ++ SEPNAMEPART ++ ktask) workdir timeout
          (algname ++ "_" ++ kstrex) netsize (taskpath ++ EXTLOG) (taskpath ++ EXTELOG),
         taskpath))
      .ok ⟨items.map (·.1), items.map (·.2), scpKmax + 1 - scpKmin⟩

/-- The floating-point sweep loop of `execPscan` (benchapps.py:733-758):
`while eps <= epsMax: ...; eps += deps`, collecting the visited epsilon
values.  Python float arithmetic is modelled by exact fractions; on the
concrete sweep both agree that the loop body runs 11 times (in IEEE
doubles the accumulated value after ten increments is
0.8999999999999998 ≤ 0.9; exactly, 0.05 + 10·0.085 = 0.9 ≤ 0.9).  The
fuel argument merely bounds the recursion; the loop exits through its
condition. -/
def pscanLoop : Nat → Frac → Frac → Frac → List Frac
  | 0, _, _, _ => []
  | fuel + 1, eps, epsMax, deps =>
    if Frac.ble eps epsMax then eps :: pscanLoop fuel (Frac.add eps deps) epsMax deps
    else []

/-- Result of `execPscan`: the swept epsilon values (each yielding one
prepared directory, named with `str(eps)` embedded — distinct values give
distinct names — and one submitted job) and the returned count. -/
structure PscanRun where
  epsList : List Frac
  jobs : List Job
  ret : Nat
  deriving Repr

/-- `execPscan` (benchapps.py:708): sweeps the similarity threshold from
`eps = 0.05` while `eps <= epsMax = 0.9` in increments of
`deps = (epsMax - eps)/steps` with `steps = 10`, submitting one job per
visited epsilon, and returns `steps`.  Job names and categories embed
`str(eps)`; the swept value itself stands for that embedded parameter
here. -/
def execPscan (rawsize : Nat) (netfile : String) (asym : Option Bool)
    (_odir : Bool) (timeout : Nat) (_pathid : String) (workdir : String) :
    Except String PscanRun :=
  if netfile = "" then .error "Invalid input parameters"
  else
    let netsize := netsizeOf rawsize asym
    let task := taskOf netfile
    if task = "" then .error "The network name should exists"
    else
      let algname := funcToAppName "execPscan"
      let eps : Frac := ⟨5, 100⟩
      let epsMax : Frac := ⟨9, 10⟩
      let steps : Nat := 10
      let deps := Frac.div (Frac.sub epsMax eps) (Frac.ofNat steps)
      let epsList := pscanLoop 64 eps epsMax deps
      let jobs := epsList.map (fun _e =>
        Job.mk (algname ++ SEPNAMEPART ++ task) workdir timeout algname netsize
          "/dev/null" "")
      .ok ⟨epsList, jobs, steps⟩

/-! ## `aggexec` (benchapps.py:55)

The filesystem visible to `aggexec` is a map from file names to contents
(an association list); a missing entry raises `IOError` on open-for-read
and reads as an empty just-created file on open-for-append.  Assertion
failures and `float()` conversion errors abort the whole call
(`Except.error`); the warnings printed to stderr are collected in order. -/

abbrev Files := List (String × String)

/-- Content of a file, `none` when it does not exist. -/
def Files.read (fs : Files) (name : String) : Option String :=
  (fs.find? (fun p => p.1 == name)).map (·.2)

/-- Append `chunk` to a file, creating it when absent (mode `'a'`). -/
def Files.writeApp : Files → String → String → Files
  | [], n, c => [(n, c)]
  | (n', c') :: rest, n, c =>
    if n' == n then (n', c' ++ c) :: rest else (n', c') :: Files.writeApp rest n c

/-- Python file iteration: the lines of a file content, each keeping its
trailing newline; a final fragment without a newline is its own line. -/
def linesKeepNlL : List Char → List Char → List (List Char)
  | [], acc => if acc.isEmpty then [] else [acc.reverse]
  | '\n' :: cs, acc => (acc.reverse ++ ['\n']) :: linesKeepNlL cs []
  | c :: cs, acc => linesKeepNlL cs (c :: acc)

/-- Lines of a file content as strings. -/
def linesKeepNl (s : String) : List String :=
  (linesKeepNlL s.data []).map String.mk

/-- One ordered table per measure: network name to its accumulator list
(Python dict preserving insertion order of the networks). -/
abbrev Table := List (String × List ItemsStatistic)

/-- Lookup with Python `dict.setdefault(net, [])` read semantics. -/
def Table.getD (t : Table) (k : String) : List ItemsStatistic :=
  ((t.find? (fun p => p.1 == k)).map (·.2)).getD []

/-- Store a network's accumulator list, inserting at the end when new. -/
def Table.upd : Table → String → List ItemsStatistic → Table
  | [], k, v => [(k, v)]
  | (k', v') :: rest, k, v =>
    if k' == k then (k', v) :: rest else (k', v') :: Table.upd rest k v

/-- `netstats[-1].add(val)`: update the last accumulator of the list. -/
def addLast : List ItemsStatistic → Frac → List ItemsStatistic
  | [], _ => []
  | [st], v => [st.add v]
  | st :: s2 :: rest, v => st :: addLast (s2 :: rest) v

/-- Accumulate one measured value (benchapps.py:100-105): fetch the
network's accumulator list, append a fresh `ItemsStatistic` when this is
the current algorithm's first value for the network — asserting that the
list is synced with the index `ialg` of the algorithm among the
successfully opened ones — and add the value to the last accumulator. -/
def accumVal (alg net : String) (ialg : Nat) (val : Frac) (t : Table) :
    Except String Table :=
  let netstats := t.getD net
  if netstats.length ≤ ialg then
    if netstats.length = ialg then
      .ok (t.upd net (addLast (netstats ++ [ItemsStatistic.init (alg ++ "_" ++ net) val val]) val))
    else .error "Network statistics are not synced with algorithms"
  else .ok (t.upd net (addLast netstats val))

/-- The three accumulation tables, `measures = [{}, {}, {}]` for
`('exectime', 'cputime', 'rssmem')`. -/
structure Measures where
  etime : Table
  ctime : Table
  rmem : Table
  deriving DecidableEq, Repr

/-- Process one log line (benchapps.py:82-105): lstrip; skip empty and
`#`-comment lines; split into at most six whitespace-separated fields,
asserting exactly six; derive the network name from the task field and
assert it non-empty; parse the exec-time, CPU-time and peak-RSS fields
as floats and accumulate each into its measure table. -/
def procLine (alg : String) (ialg : Nat) (ms : Measures) (ln0 : String) :
    Except String Measures :=
  let ln := pyLstrip ln0
  match ln.data with
  | [] => .ok ms
  | '#' :: _ => .ok ms
  | _ =>
    let fields := pySplitWs ln 5
    if fields.length = 6 then
      let net := delPathSuffix (pyRstrip (fields.getD 5 "")) true
      if net = "" then .error "Network name must exist"
      else
        match parseFloat (fields.getD 0 ""), parseFloat (fields.getD 1 ""),
            parseFloat (fields.getD 4 "") with
        | some etime, some ctime, some rmem =>
          match accumVal alg net ialg etime ms.etime with
          | .error e => .error e
          | .ok t0 =>
            match accumVal alg net ialg ctime ms.ctime with
            | .error e => .error e
            | .ok t1 =>
              match accumVal alg net ialg rmem ms.rmem with
              | .error e => .error e
              | .ok t2 => .ok ⟨t0, t1, t2⟩
        | _, _, _ => .error "ValueError: could not convert string to float"
    else .error "Invalid format of the resource consumption file"

/-- Process all lines of one successfully opened log. -/
def procLines (alg : String) (ialg : Nat) : Measures → List String → Except String Measures
  | ms, [] => .ok ms
  | ms, ln :: rest =>
    match procLine alg ialg ms ln with
    | .error e => .error e
    | .ok ms1 => procLines alg ialg ms1 rest

/-- Name of an algorithm's resource-consumption log
(benchapps.py:77): `_RESDIR + alg + '/' + alg + _EXTEXECTIME`. -/
def algesfileOf (alg : String) : String :=
  RESDIR ++ alg ++ "/" ++ alg ++ EXTEXECTIME

/-- Warning printed when an algorithm's log cannot be opened. -/
def warnSkip (alg : String) : String :=
  "WARNING, execution results for \"" ++ alg ++ "\" do not exist, skipped."

/-- Warning printed when no log could be opened at all. -/
def warnNoRes : String :=
  "WARNING, there are no any algortihms execution results to be aggregated."

/-- State of the accumulation loop over the algorithm list. -/
structure AggSt where
  ms : Measures
  malgs : List String
  ialg : Nat
  warnings : List String
  deriving DecidableEq, Repr

/-- One iteration of the loop over `algs` (benchapps.py:76-109): try to
open the algorithm's log; on `IOError` warn and continue; otherwise
record the algorithm in `malgs`, process its lines, and (the `else` of
the `try`) increment `ialg`. -/
def aggStep (files : Files) (st : AggSt) (alg : String) : Except String AggSt :=
  match files.read (algesfileOf alg) with
  | none => .ok { st with warnings := st.warnings ++ [warnSkip alg] }
  | some content =>
    match procLines alg st.ialg st.ms (linesKeepNl content) with
    | .error e => .error e
    | .ok ms => .ok { st with ms := ms, malgs := st.malgs ++ [alg], ialg := st.ialg + 1 }

/-- The accumulation loop over the whole algorithm list. -/
def aggFold (files : Files) : AggSt → List String → Except String AggSt
  | st, [] => .ok st
  | st, a :: rest =>
    match aggStep files st a with
    | .error e => .error e
    | .ok st1 => aggFold files st1 rest

/-- Format-description header written once at the top of a previously
empty extended report file (benchapps.py:123). -/
def fmtHeaderX : String := "# <network>\n#\t<alg1_outp>\n#\t<alg2_outp>\n#\t...\n"

/-- Timestamp line written to both report files on every run
(benchapps.py:125-126). -/
def tsLine (ts : String) : String := "# --- " ++ ts ++ " ---\n"

/-- Fix-on-demand before reading a statistic for output
(benchapps.py:137-138): `if not stat.fixed: stat.fix()`. -/
def statOut (st : ItemsStatistic) : ItemsStatistic :=
  if st.fixed then st else st.fix

/-- Chunks written to the compact report for one network's row
(benchapps.py:134, 141, 144): the network name, one tab-prefixed
3-decimal cell per accumulator — the sum for the time measures, the
average for the memory measure — and a newline. -/
def resRowChunks (useAvg : Bool) (netname : String)
    (netstats : List ItemsStatistic) : List String :=
  [netname] ++ netstats.map (fun st0 =>
    let st := statOut st0
    "\t" ++ formatF 3 (if useAvg then st.avg else st.sum)) ++ ["\n"]

/-- Chunks written to the extended report for one network's row
(benchapps.py:135, 142-143, 145): the network name, then per
accumulator (paired positionally with `malgs`) an indented line with the
total, average and min..max range. -/
def resxRowChunks (useAvg : Bool) (malgs : List String) (netname : String)
    (netstats : List ItemsStatistic) : List String :=
  [netname] ++ (malgs.zip netstats).map (fun p =>
    let st := statOut p.2
    let v := if useAvg then st.avg else st.sum
    "\n\t" ++ p.1 ++ ">\ttotal: " ++ formatF 3 v ++ ", per_item: " ++
      formatF 6 st.avg ++ " (" ++ formatF 6 st.min ++ " .. " ++ formatF 6 st.max ++ ")")
    ++ ["\n"]

/-- Everything appended to the compact report of one measure in one run
(benchapps.py:125-144): timestamp, `# <network>` header with one
tab-separated column per opened algorithm, then one row per network. -/
def resChunks (ts : String) (malgs : List String) (useAvg : Bool) (t : Table) :
    List String :=
  [tsLine ts, "# <network>"] ++ malgs.map (fun a => "\t" ++ a) ++ ["\n"]
    ++ t.flatMap (fun p => resRowChunks useAvg p.1 p.2)

/-- Everything appended to the extended report of one measure in one run
(benchapps.py:122-145): the format header only when the file was empty,
the timestamp, then one block per network. -/
def resxChunks (priorEmpty : Bool) (ts : String) (malgs : List String)
    (useAvg : Bool) (t : Table) : List String :=
  (if priorEmpty then [fmtHeaderX] else []) ++ [tsLine ts]
    ++ t.flatMap (fun p => resxRowChunks useAvg malgs p.1 p.2)

/-- Write both report files of one measure (benchapps.py:117-145): both
are opened in mode `'a'`; the emptiness check `os.path.getsize(resxfile)`
runs after the append-mode open created the file, so a missing file
counts as empty.  (Per-measure `IOError` handling on these writes,
benchapps.py:146-148, is not modelled: writes always succeed here.) -/
def writeMeasure (files : Files) (ts measure : String) (useAvg : Bool)
    (malgs : List String) (t : Table) : Files :=
  let resfile := RESDIR ++ measure ++ EXTAGGRES
  let resxfile := RESDIR ++ measure ++ EXTAGGRESEXT
  let priorEmpty := ((files.read resxfile).getD "").isEmpty
  let files1 := files.writeApp resfile (String.join (resChunks ts malgs useAvg t))
  files1.writeApp resxfile (String.join (resxChunks priorEmpty ts malgs useAvg t))

/-- `aggexec(algs)` (benchapps.py:55-148): accumulate all algorithms'
logs, and unless no log could be opened (then only a final warning is
added), append both report files for each of the three measures —
`exectime` and `cputime` reporting sums, `rssmem` (the last measure)
reporting averages.  Returns the final filesystem and the warnings in
emission order. -/
def aggexec (files : Files) (ts : String) (algs : List String) :
    Except String (Files × List String) :=
  match aggFold files ⟨⟨[], [], []⟩, [], 0, []⟩ algs with
  | .error e => .error e
  | .ok st =>
    if st.malgs.isEmpty then .ok (files, st.warnings ++ [warnNoRes])
    else
      let f1 := writeMeasure files ts "exectime" false st.malgs st.ms.etime
      let f2 := writeMeasure f1 ts "cputime" false st.malgs st.ms.ctime
      let f3 := writeMeasure f2 ts "rssmem" true st.malgs st.ms.rmem
      .ok (f3, st.warnings)

deriving instance DecidableEq for Except

/-! ## Claim C1 -/

/-- C1: for the sweep builders the value returned must equal the number
of jobs submitted, one job and one prepared directory per sweep point.
`execScp` keeps this: it returns `kmax + 1 - kmin = 6` after submitting
six jobs into six distinct directories.  `execPscan` does not: its
inclusive floating-point loop visits eleven strictly increasing epsilon
values between 0.05 and 0.9 (one job and one prepared directory each),
yet it returns `steps = 10` — the off-by-one the code's own docstring
("return - number of executions (jobs) made") forbids. -/
theorem sweep_jobs_vs_return :
    (∃ r, execScp 100 "syntnets/1K10.nse" none false 0 "" "." = .ok r ∧
      r.ret = 6 ∧ r.jobs.length = 6 ∧ r.prepared.length = 6 ∧ r.prepared.Nodup) ∧
    (∃ p, execPscan 100 "syntnets/1K10.nse" none false 0 "" "." = .ok p ∧
      p.ret = 10 ∧ p.jobs.length = 11 ∧ p.epsList.length = 11 ∧
      p.epsList.Pairwise (fun a b => Frac.blt a b = true) ∧
      (∀ e ∈ p.epsList, Frac.ble ⟨5, 100⟩ e = true ∧ Frac.ble e ⟨9, 10⟩ = true)) := by
  constructor
  · refine ⟨_, rfl, ?_⟩
    decide
  · refine ⟨_, rfl, ?_⟩
    decide

/-! ## Claim C9 -/

/-- C9: `PyBin.bestof` is a pure function of the probed runtime set and
the preferences, and picks runtimes in the strict priority order
pypy3 (when pypy and v3 are both requested and pypy3 was detected)
> pypy (when requested and detected) > python3 (when v3 is requested and
detected) > the running interpreter or the generic name `python`.  In
the first three tiers the result is either the detected command or the
already-running interpreter when its basename shows it is that very
runtime. -/
theorem bestof_priority (h3 hp hq : Bool) (px : String) (pypy v3 : Bool) :
    ((pypy && v3 && h3) = true →
      bestof h3 hp hq px pypy v3 = "pypy3" ∨
      (bestof h3 hp hq px pypy v3 = px ∧
        pyFind (String.mk (basenameL px.data)) "pypy3" ≠ -1)) ∧
    ((pypy && v3 && h3) = false → (pypy && hp) = true →
      bestof h3 hp hq px pypy v3 = "pypy" ∨
      (bestof h3 hp hq px pypy v3 = px ∧
        pyFind (String.mk (basenameL px.data)) "pypy" ≠ -1)) ∧
    ((pypy && v3 && h3) = false → (pypy && hp) = false → (v3 && hq) = true →
      bestof h3 hp hq px pypy v3 = "python3" ∨
      (bestof h3 hp hq px pypy v3 = px ∧
        pyFind (String.mk (basenameL px.data)) "python3" ≠ -1)) ∧
    ((pypy && v3 && h3) = false → (pypy && hp) = false → (v3 && hq) = false →
      bestof h3 hp hq px pypy v3 = "python" ∨ bestof h3 hp hq px pypy v3 = px) := by
  refine ⟨fun h1 => ?_, fun h1 h2 => ?_, fun h1 h2 h3' => ?_, fun h1 h2 h3' => ?_⟩
  · simp only [bestof, h1, if_true]
    split
    · exact Or.inl rfl
    · rename_i hfind
      simp only [beq_iff_eq] at hfind
      exact Or.inr ⟨rfl, hfind⟩
  · simp only [bestof, h1, h2, if_true, Bool.false_eq_true, if_false]
    split
    · exact Or.inl rfl
    · rename_i hfind
      simp only [Bool.or_eq_true, beq_iff_eq, not_or] at hfind
      exact Or.inr ⟨rfl, hfind.1⟩
  · simp only [bestof, h1, h2, h3', if_true, Bool.false_eq_true, if_false]
    split
    · exact Or.inl rfl
    · rename_i hfind
      simp only [beq_iff_eq] at hfind
      exact Or.inr ⟨rfl, hfind⟩
  · simp only [bestof, h1, h2, h3', Bool.false_eq_true, if_false]
    split
    · exact Or.inl rfl
    · exact Or.inr rfl

/-- C9 witness: with all three runtimes detected and CPython running,
requesting a JIT v3 runtime yields `pypy3`. -/
theorem bestof_priority_witness :
    bestof true true true "/usr/bin/python" true true = "pypy3" := by
  have h := (bestof_priority true true true "/usr/bin/python" true true).1 rfl
  rcases h with h | ⟨_, hfind⟩
  · exact h
  · exact absurd (by decide) hfind

/-! ## Claim C10 -/

/-- C10: every builder's job size estimate is the network file size
doubled whenever `asym` is falsy — both `False` (undirected) and `None`
(unknown) — and the raw size only when `asym` is `True`; the unknown
case coincides with the undirected one. -/
theorem jobSize_asym_doubling (raw : Nat) (nf : String) (asym : Option Bool)
    (odir : Bool) (tmo : Nat) (pid wd : String) :
    (netsizeOf raw none = raw * 2 ∧ netsizeOf raw (some false) = raw * 2 ∧
      netsizeOf raw (some true) = raw) ∧
    (∀ r, execLouvainIg raw nf asym odir tmo pid wd = .ok r →
      ∀ j ∈ r.jobs, j.size = netsizeOf raw asym) ∧
    (∀ r, execScp raw nf asym odir tmo pid wd = .ok r →
      ∀ j ∈ r.jobs, j.size = netsizeOf raw asym) ∧
    (∀ r, execPscan raw nf asym odir tmo pid wd = .ok r →
      ∀ j ∈ r.jobs, j.size = netsizeOf raw asym) := by
  refine ⟨⟨rfl, rfl, rfl⟩, fun r h j hj => ?_, fun r h j hj => ?_, fun r h j hj => ?_⟩
  · unfold execLouvainIg at h
    split at h
    · exact absurd h (by simp)
    · dsimp only at h
      split at h
      · exact absurd h (by simp)
      · simp only [Except.ok.injEq] at h
        subst h
        simp only [List.mem_singleton] at hj
        subst hj
        rfl
  · unfold execScp at h
    split at h
    · exact absurd h (by simp)
    · dsimp only at h
      split at h
      · exact absurd h (by simp)
      · simp only [Except.ok.injEq] at h
        subst h
        simp only [List.map_map, List.mem_map] at hj
        obtain ⟨k, _, hk⟩ := hj
        subst hk
        rfl
  · unfold execPscan at h
    split at h
    · exact absurd h (by simp)
    · dsimp only at h
      split at h
      · exact absurd h (by simp)
      · simp only [Except.ok.injEq] at h
        subst h
        simp only [List.mem_map] at hj
        obtain ⟨e, _, he⟩ := hj
        subst he
        rfl

/-- C10 witness: a 100-byte network with `asym = None` yields jobs of
size 200 in `execLouvainIg`. -/
theorem jobSize_asym_doubling_witness :
    netsizeOf 100 none = 200 ∧
    ∃ r, execLouvainIg 100 "a/b.nse" none false 0 "" "." = .ok r ∧
      ∀ j ∈ r.jobs, j.size = netsizeOf 100 none := by
  have h := jobSize_asym_doubling 100 "a/b.nse" none false 0 "" "."
  exact ⟨h.1.1, ⟨_, rfl, h.2.1 _ rfl⟩⟩

/-! ## Shared facts about the accumulation loop -/

/-- Initial state of `aggexec`'s accumulation loop: empty tables, no
measured algorithms, index 0, no warnings. -/
def initAggSt : AggSt := ⟨⟨[], [], []⟩, [], 0, []⟩

/-- A successful accumulation pass records in `malgs` exactly the
algorithms whose log was openable (in input order) and emits exactly one
skip warning per unopenable log (in input order). -/
theorem aggFold_malgs_warnings (files : Files) :
    ∀ (algs : List String) (st0 st : AggSt),
      aggFold files st0 algs = .ok st →
      st.malgs = st0.malgs ++ algs.filter (fun x => (files.read (algesfileOf x)).isSome) ∧
      st.warnings = st0.warnings ++
        (algs.filter (fun x => (files.read (algesfileOf x)).isNone)).map warnSkip := by
  intro algs
  induction algs with
  | nil =>
    intro st0 st h
    simp only [aggFold] at h
    cases h
    simp
  | cons a rest ih =>
    intro st0 st h
    simp only [aggFold] at h
    cases hstep : aggStep files st0 a with
    | error e => rw [hstep] at h; exact absurd h (by simp)
    | ok st1 =>
      rw [hstep] at h
      have hrest := ih st1 st h
      unfold aggStep at hstep
      split at hstep
      · rename_i hread
        simp only [Except.ok.injEq] at hstep
        subst hstep
        refine ⟨?_, ?_⟩
        · rw [hrest.1]
          simp [List.filter_cons, hread]
        · rw [hrest.2]
          simp [List.filter_cons, hread, List.append_assoc]
      · rename_i content hread
        split at hstep
        · exact absurd hstep (by simp)
        · rename_i ms1 hproc
          simp only [Except.ok.injEq] at hstep
          subst hstep
          refine ⟨?_, ?_⟩
          · rw [hrest.1]
            simp [List.filter_cons, hread, List.append_assoc]
          · rw [hrest.2]
            simp [List.filter_cons, hread]

/-! ## Claim C7 -/

/-- C7: when one algorithm's resource log cannot be opened, `aggexec`
emits the skip warning for it, that algorithm never enters `malgs` (the
list that provides the single column per algorithm in every measure's
report), and every algorithm with an openable log is still aggregated. -/
theorem aggexec_skips_unopenable (files : Files) (ts : String)
    (algs : List String) (a : String) (ha : a ∈ algs)
    (hno : files.read (algesfileOf a) = none) :
    ∀ fw, aggexec files ts algs = .ok fw →
      warnSkip a ∈ fw.2 ∧
      ∃ st, aggFold files initAggSt algs = .ok st ∧
        st.malgs = algs.filter (fun x => (files.read (algesfileOf x)).isSome) ∧
        a ∉ st.malgs ∧
        ∀ b ∈ algs, (files.read (algesfileOf b)).isSome = true → b ∈ st.malgs := by
  intro fw h
  unfold aggexec at h
  split at h
  · exact absurd h (by simp)
  · rename_i st heq
    have hinv := aggFold_malgs_warnings files algs _ st heq
    simp only [List.nil_append] at hinv
    have hwmem : warnSkip a ∈ st.warnings := by
      rw [hinv.2]
      exact List.mem_map_of_mem _ (List.mem_filter.2 ⟨ha, by simp [hno]⟩)
    have hrest : st.malgs = algs.filter (fun x => (files.read (algesfileOf x)).isSome) ∧
        a ∉ st.malgs ∧
        ∀ b ∈ algs, (files.read (algesfileOf b)).isSome = true → b ∈ st.malgs := by
      refine ⟨hinv.1, ?_, ?_⟩
      · rw [hinv.1]
        intro hmem
        have := (List.mem_filter.1 hmem).2
        rw [hno] at this
        simp at this
      · intro b hb hob
        rw [hinv.1]
        exact List.mem_filter.2 ⟨hb, hob⟩
    split at h
    · simp only [Except.ok.injEq] at h
      subst h
      exact ⟨List.mem_append_left _ hwmem, st, heq, hrest⟩
    · simp only [Except.ok.injEq] at h
      subst h
      exact ⟨hwmem, st, heq, hrest⟩

/-- C7 witness: with the log of `bad` absent and the log of `good`
present, aggregation succeeds and warns about `bad`. -/
theorem aggexec_skips_unopenable_witness :
    ∃ fw, aggexec [(algesfileOf "good", "1 1 1 1 1 n\n")] "TS" ["bad", "good"] = .ok fw ∧
      warnSkip "bad" ∈ fw.2 :=
  ⟨_, rfl, (aggexec_skips_unopenable [(algesfileOf "good", "1 1 1 1 1 n\n")] "TS"
    ["bad", "good"] "bad" (by decide) (by decide) _ rfl).1⟩

/-! ## Claim C8 -/

/-- When no algorithm's log is openable, the accumulation loop only
collects skip warnings. -/
theorem aggFold_all_unopenable (files : Files) :
    ∀ (algs : List String), (∀ x ∈ algs, files.read (algesfileOf x) = none) →
      ∀ st0, aggFold files st0 algs
        = .ok { st0 with warnings := st0.warnings ++ algs.map warnSkip } := by
  intro algs
  induction algs with
  | nil => intro _ st0; simp [aggFold]
  | cons a rest ih =>
    intro h st0
    simp only [aggFold, aggStep, h a (List.mem_cons_self a rest)]
    rw [ih (fun x hx => h x (List.mem_cons_of_mem a hx))]
    simp

/-- C8 (amended): for the empty algorithm list `aggexec` emits exactly
one warning and leaves every file untouched; for a non-empty list none
of whose logs can be opened it also leaves every file untouched, but
emits one skip warning per algorithm followed by the final
nothing-to-aggregate warning — `n + 1` warnings, not a single one. -/
theorem aggexec_nothing_to_aggregate (files : Files) (ts : String)
    (algs : List String) (h : ∀ x ∈ algs, files.read (algesfileOf x) = none) :
    aggexec files ts algs = .ok (files, algs.map warnSkip ++ [warnNoRes]) := by
  unfold aggexec
  rw [show (⟨⟨[], [], []⟩, [], 0, []⟩ : AggSt) = initAggSt from rfl,
    aggFold_all_unopenable files algs h initAggSt]
  rfl

/-- C8 witness: two unopenable algorithms yield the two skip warnings
plus the final warning, with no file created or modified. -/
theorem aggexec_nothing_to_aggregate_witness :
    aggexec [] "W" ["a", "b"] = .ok ([], ["a", "b"].map warnSkip ++ [warnNoRes]) :=
  aggexec_nothing_to_aggregate [] "W" ["a", "b"] (by decide)

/-- C8 counterexample: for the singleton list of one unopenable
algorithm, `aggexec` emits two warnings (the per-algorithm skip warning
and the final no-results warning) — not the single warning the claim
asserts — though indeed no file is created or modified. -/
theorem aggexec_single_unopenable_two_warnings :
    aggexec [] "TS" ["a"] = .ok ([], [warnSkip "a", warnNoRes]) ∧
    warnSkip "a" ≠ warnNoRes := by
  constructor
  · decide
  · decide

/-! ## Claim C2 -/

/-- Two resource logs: `a1` covers network `netA` only, `a2` covers
`netA` and `netB`. -/
def c2files : Files :=
  [(algesfileOf "a1", "1 1 1 1 1 netA\n"),
   (algesfileOf "a2", "1 1 1 1 1 netA\n1 1 1 1 1 netB\n")]

/-- C2 counterexample: with the `{A}`-only log opened first and the
`{A, B}` log second, the claimed invariant fails — network `netB` never
receives its single aligned entry, because appending `netB`'s first
accumulator at position 0 while the opened-algorithm index is already 1
trips the sync assertion and kills the whole aggregation pass. -/
theorem aggexec_accum_not_synced :
    aggFold c2files initAggSt ["a1", "a2"]
      = .error "Network statistics are not synced with algorithms" ∧
    aggexec c2files "TS" ["a1", "a2"]
      = .error "Network statistics are not synced with algorithms" := by
  constructor
  · decide
  · decide

/-- C2 (amended): the accumulator at position `i` corresponds to the
`i`-th algorithm whose log was successfully *opened* (whether or not it
produced results); a network absent from an earlier opened log triggers
a fatal sync assertion when a later algorithm reports it, instead of
being skipped.  In the two-log scenario this means: when the `{A, B}`
log is processed before the `{A}`-only log, network `A` ends with two
entries aligned to algorithm order and network `B` with a single entry
and no placeholder — the provenance recorded in each accumulator's name
(`<alg>_<net>`) exhibits the alignment. -/
theorem aggexec_accum_alignment :
    ∃ st, aggFold c2files initAggSt ["a2", "a1"] = .ok st ∧
      st.malgs = ["a2", "a1"] ∧
      (Table.getD st.ms.etime "netA").map (·.sname) = ["a2_netA", "a1_netA"] ∧
      (Table.getD st.ms.etime "netB").map (·.sname) = ["a2_netB"] ∧
      (Table.getD st.ms.etime "netA").length = 2 ∧
      (Table.getD st.ms.etime "netB").length = 1 := by
  refine ⟨_, rfl, ?_⟩
  decide

/-! ## Claim C4 -/

/-- A capped whitespace split never yields more than `maxsplit + 1`
fields. -/
theorem splitWsL_length_le (m : Nat) : ∀ l : List Char, (splitWsL m l).length ≤ m + 1 := by
  induction m with
  | zero =>
    intro l
    simp only [splitWsL]
    split <;> simp
  | succ m ih =>
    intro l
    simp only [splitWsL]
    split
    · simp
    · simpa using Nat.succ_le_succ (ih _)

/-- C4 (amended): a non-blank, non-comment log line with *fewer* than
six whitespace-separated fields is a fatal format violation, but a line
with *more* than six fields cannot trip the assertion: `split(None, 5)`
caps the field count at six, silently merging the extra text into the
sixth (task-name) field. -/
theorem aggexec_field_count (alg : String) (ialg : Nat) (ms : Measures) (ln : String)
    (hne : (pyLstrip ln).data ≠ [])
    (hnc : (pyLstrip ln).data.head? ≠ some '#')
    (hlt : (pySplitWs (pyLstrip ln) 5).length ≠ 6) :
    procLine alg ialg ms ln = .error "Invalid format of the resource consumption file" ∧
    (pySplitWs (pyLstrip ln) 5).length ≤ 6 := by
  refine ⟨?_, by simpa [pySplitWs] using splitWsL_length_le 5 (pyLstrip ln).data⟩
  unfold procLine
  dsimp only
  split
  · rename_i heq
    exact absurd heq hne
  · rename_i rest heq
    exact absurd (by rw [heq]; rfl) hnc
  · rw [if_neg hlt]

/-- C4 witness: a five-field line aborts aggregation fatally, and no
line can produce more than six fields. -/
theorem aggexec_field_count_witness :
    procLine "a" 0 ⟨[], [], []⟩ "1 2 3 4 5"
      = .error "Invalid format of the resource consumption file" ∧
    (pySplitWs (pyLstrip "1 2 3 4 5") 5).length ≤ 6 :=
  aggexec_field_count "a" 0 ⟨[], [], []⟩ "1 2 3 4 5" (by decide) (by decide) (by decide)

/-- C4 counterexample: a line with seven whitespace-separated fields is
*not* rejected — the split caps at six fields, the assertion passes, and
the seventh token is silently merged into the task-name field, so the
line is accumulated under the network name `graph1 extra`. -/
theorem aggexec_seven_fields_accepted :
    ∃ st, aggFold [(algesfileOf "a1", "0.5 0.4 0.3 0.1 2.0 graph1 extra\n")]
        initAggSt ["a1"] = .ok st ∧
      (Table.getD st.ms.etime "graph1 extra").map (·.sname) = ["a1_graph1 extra"] ∧
      pySplitWs "0.5 0.4 0.3 0.1 2.0 graph1 extra" 5
        = ["0.5", "0.4", "0.3", "0.1", "2.0", "graph1 extra"] := by
  refine ⟨_, rfl, ?_⟩
  decide

/-! ## Claim C5 -/

/-- Addition of fractions is value-correct for positive denominators. -/
theorem Frac.val_add (a b : Frac) (ha : 0 < a.den) (hb : 0 < b.den) :
    (Frac.add a b).val = a.val + b.val := by
  have ha' : ((a.den : Int) : ℚ) ≠ 0 := by
    simp only [Int.cast_natCast, ne_eq, Nat.cast_eq_zero]
    omega
  have hb' : ((b.den : Int) : ℚ) ≠ 0 := by
    simp only [Int.cast_natCast, ne_eq, Nat.cast_eq_zero]
    omega
  unfold Frac.val Frac.add
  push_cast
  field_simp
  try ring

/-- Addition keeps denominators positive. -/
theorem Frac.den_add_pos (a b : Frac) (ha : 0 < a.den) (hb : 0 < b.den) :
    0 < (Frac.add a b).den := Nat.mul_pos ha hb

/-- Dividing by a positive natural is value-correct. -/
theorem Frac.val_div_ofNat (a : Frac) (n : Nat) :
    (Frac.div a (Frac.ofNat n)).val = a.val / n := by
  have hcond : (0 : Int) ≤ (Frac.ofNat n).num := Int.natCast_nonneg n
  unfold Frac.div
  rw [if_pos hcond]
  unfold Frac.val Frac.ofNat
  simp only [Int.natAbs_ofNat]
  push_cast
  rw [mul_one, div_div]

/-- Folding `ItemsStatistic.add` over a value list adds the list length
to the count, adds the values to the running sum, keeps the sum's
denominator positive and leaves the `fixed` flag untouched. -/
theorem statFold_count_sum (vs : List Frac) :
    ∀ st : ItemsStatistic, 0 < st.sum.den → (∀ u ∈ vs, 0 < u.den) →
      (vs.foldl ItemsStatistic.add st).count = st.count + vs.length ∧
      (vs.foldl ItemsStatistic.add st).sum.val = st.sum.val + (vs.map Frac.val).sum ∧
      0 < (vs.foldl ItemsStatistic.add st).sum.den ∧
      (vs.foldl ItemsStatistic.add st).fixed = st.fixed := by
  induction vs with
  | nil =>
    intro st hst _
    simp [hst]
  | cons u rest ih =>
    intro st hst hall
    have hu : 0 < u.den := hall u (List.mem_cons_self u rest)
    have hstep : 0 < (st.add u).sum.den :=
      Frac.den_add_pos st.sum u hst hu
    have key := ih (st.add u) hstep (fun x hx => hall x (List.mem_cons_of_mem u hx))
    simp only [List.foldl_cons]
    refine ⟨?_, ?_, key.2.2.1, key.2.2.2⟩
    · rw [key.1]
      simp only [ItemsStatistic.add, List.length_cons]
      omega
    · rw [key.2.1]
      show ((st.add u).sum).val + (rest.map Frac.val).sum = _
      have : (st.add u).sum = Frac.add st.sum u := rfl
      rw [this, Frac.val_add st.sum u hst hu]
      simp only [List.map_cons, List.sum_cons]
      ring

/-- Resource log for `algX`: two `graph1` lines with exec times 0.5 and
0.7 (CPU times 0.4, 0.6; peak RSS 2.0, 3.0) and one `graph2` line. -/
def c5files : Files :=
  [(algesfileOf "algX",
    "0.5 0.4 0.3 0.1 2.0\tgraph1\n0.7 0.6 0.5 0.1 3.0\tgraph1\n1.2 1.0 0.9 0.1 2.5\tgraph2\n")]

set_option maxRecDepth 100000

/-- C5: an accumulator that received values `v :: vs` has `count`
equal to the number of samples, `sum` equal to their exact sum and,
once fixed for output, `avg = sum / count`; and in the end-to-end
scenario (exec times 0.5 and 0.7 for `graph1`, 1.2 for `graph2`) the
compact report cell for each time measure is the 3-decimal *sum*
(`graph1  1.200` from 0.5 + 0.7, `1.000` from 0.4 + 0.6), the memory
cell is the 3-decimal *average* (`2.500` from (2.0 + 3.0)/2, not the
sum 5.000), and the extended report shows
`total: 1.200, per_item: 0.600000 (0.500000 .. 0.700000)`. -/
theorem aggexec_sum_time_avg_mem :
    (∀ (nm : String) (v : Frac) (vs : List Frac), 0 < v.den → (∀ u ∈ vs, 0 < u.den) →
      (vs.foldl ItemsStatistic.add ((ItemsStatistic.init nm v v).add v)).count
          = vs.length + 1 ∧
      (vs.foldl ItemsStatistic.add ((ItemsStatistic.init nm v v).add v)).sum.val
          = ((v :: vs).map Frac.val).sum ∧
      (statOut (vs.foldl ItemsStatistic.add ((ItemsStatistic.init nm v v).add v))).avg.val
          = ((v :: vs).map Frac.val).sum / (vs.length + 1)) ∧
    (∃ fw, aggexec c5files "TS" ["algX"] = .ok fw ∧
      fw.1.read "results/exectime.res"
        = some "# --- TS ---\n# <network>\talgX\ngraph1\t1.200\ngraph2\t1.200\n" ∧
      fw.1.read "results/cputime.res"
        = some "# --- TS ---\n# <network>\talgX\ngraph1\t1.000\ngraph2\t1.000\n" ∧
      fw.1.read "results/rssmem.res"
        = some "# --- TS ---\n# <network>\talgX\ngraph1\t2.500\ngraph2\t2.500\n" ∧
      fw.1.read "results/exectime.resx"
        = some ("# <network>\n#\t<alg1_outp>\n#\t<alg2_outp>\n#\t...\n# --- TS ---\n"
          ++ "graph1\n\talgX>\ttotal: 1.200, per_item: 0.600000 (0.500000 .. 0.700000)\n"
          ++ "graph2\n\talgX>\ttotal: 1.200, per_item: 1.200000 (1.200000 .. 1.200000)\n") ∧
      fw.2 = []) := by
  constructor
  · intro nm v vs hv hvs
    have hst0 : 0 < ((ItemsStatistic.init nm v v).add v).sum.den := by
      have : ((ItemsStatistic.init nm v v).add v).sum = Frac.add (Frac.ofNat 0) v := rfl
      rw [this]
      exact Frac.den_add_pos _ v (by simp [Frac.ofNat]) hv
    have key := statFold_count_sum vs ((ItemsStatistic.init nm v v).add v) hst0 hvs
    have hcount : ((ItemsStatistic.init nm v v).add v).count = 1 := rfl
    have hsumv : (((ItemsStatistic.init nm v v).add v).sum).val = v.val := by
      have : ((ItemsStatistic.init nm v v).add v).sum = Frac.add (Frac.ofNat 0) v := rfl
      rw [this, Frac.val_add _ v (by simp [Frac.ofNat]) hv]
      simp [Frac.val, Frac.ofNat]
    have hc : (vs.foldl ItemsStatistic.add ((ItemsStatistic.init nm v v).add v)).count
        = vs.length + 1 := by
      rw [key.1, hcount]
      omega
    have hs : (vs.foldl ItemsStatistic.add ((ItemsStatistic.init nm v v).add v)).sum.val
        = ((v :: vs).map Frac.val).sum := by
      rw [key.2.1, hsumv]
      simp
    refine ⟨hc, hs, ?_⟩
    have hfix : (vs.foldl ItemsStatistic.add ((ItemsStatistic.init nm v v).add v)).fixed
        = false := key.2.2.2
    unfold statOut
    rw [hfix]
    simp only [Bool.false_eq_true, if_false]
    show ((vs.foldl ItemsStatistic.add ((ItemsStatistic.init nm v v).add v)).sum.div
        (Frac.ofNat (vs.foldl ItemsStatistic.add ((ItemsStatistic.init nm v v).add v)).count)).val = _
    rw [Frac.val_div_ofNat, hc, hs]
    push_cast
    rfl
  · refine ⟨_, rfl, ?_⟩
    refine ⟨by decide, by decide, by decide, by decide, by decide⟩

/-- C5 witness: two exec-time samples 0.5 and 0.7 give count 2, exact
sum 6/5 and average 3/5. -/
theorem aggexec_sum_time_avg_mem_witness :
    ([⟨7, 10⟩].foldl ItemsStatistic.add
        ((ItemsStatistic.init "algX_graph1" ⟨5, 10⟩ ⟨5, 10⟩).add ⟨5, 10⟩)).count = 2 ∧
    ([(⟨7, 10⟩ : Frac)].foldl ItemsStatistic.add
        ((ItemsStatistic.init "algX_graph1" ⟨5, 10⟩ ⟨5, 10⟩).add ⟨5, 10⟩)).sum.val = 6 / 5 ∧
    (statOut ([(⟨7, 10⟩ : Frac)].foldl ItemsStatistic.add
        ((ItemsStatistic.init "algX_graph1" ⟨5, 10⟩ ⟨5, 10⟩).add ⟨5, 10⟩))).avg.val = 3 / 5 := by
  have h := (aggexec_sum_time_avg_mem.1 "algX_graph1" ⟨5, 10⟩ [⟨7, 10⟩]
    (by decide) (by decide))
  refine ⟨h.1, ?_, ?_⟩
  · rw [h.2.1]
    norm_num [Frac.val]
  · rw [h.2.2]
    norm_num [Frac.val]

/-! ## Claim C6 -/

/-- Appending to a file yields the old content (empty when the file was
just created) followed by the appended chunk. -/
theorem read_writeApp_self (fs : Files) (n c : String) :
    (Files.writeApp fs n c).read n = some ((fs.read n).getD "" ++ c) := by
  induction fs with
  | nil =>
    simp [Files.writeApp, Files.read, List.find?]
  | cons p rest ih =>
    obtain ⟨n1, c1⟩ := p
    by_cases h : (n1 == n) = true
    · simp [Files.writeApp, Files.read, List.find?, h]
    · simp only [Files.writeApp, h, Bool.false_eq_true, if_false]
      simp only [Files.read, List.find?, h] at ih ⊢
      exact ih

/-- Appending to one file leaves every other file unchanged. -/
theorem read_writeApp_other (fs : Files) (n c n2 : String) (h : n2 ≠ n) :
    (Files.writeApp fs n c).read n2 = fs.read n2 := by
  induction fs with
  | nil =>
    have : (n == n2) = false := by
      simp only [beq_eq_false_iff_ne, ne_eq]
      exact fun hh => h hh.symm
    simp [Files.writeApp, Files.read, List.find?, this]
  | cons p rest ih =>
    obtain ⟨n1, c1⟩ := p
    by_cases h1 : (n1 == n) = true
    · have hn1 : n1 = n := by simpa [beq_iff_eq] using h1
      have : (n1 == n2) = false := by
        simp only [beq_eq_false_iff_ne, ne_eq, hn1]
        exact fun hh => h hh.symm
      simp [Files.writeApp, Files.read, List.find?, h1, this]
    · simp only [Files.writeApp, h1, Bool.false_eq_true, if_false]
      simp only [Files.read, List.find?] at ih ⊢
      cases hx : (n1 == n2) <;> simp [hx, ih]

/-- The compact and extended report files of a measure have distinct
names (their extensions differ in length). -/
theorem resfile_ne_resxfile (m : String) :
    RESDIR ++ m ++ EXTAGGRES ≠ RESDIR ++ m ++ EXTAGGRESEXT := by
  intro h
  have hlen := congrArg String.length h
  rw [String.length_append, String.length_append, String.length_append,
    String.length_append] at hlen
  have h4 : EXTAGGRES.length = 4 := rfl
  have h5 : EXTAGGRESEXT.length = 5 := rfl
  omega

/-- C6 (amended): both report files of a measure are opened in append
mode — the new content of each is its previous content (empty when
absent) followed by this run's chunks, so repeated runs accumulate —
and the chunk sequence appended to the extended file starts with the
format-description header exactly when that file was previously empty,
the timestamp line coming next; when the file was non-empty the
appended chunks start directly with the timestamp line, which is also
the first chunk of the compact report on every run. -/
theorem writeMeasure_append_semantics (files : Files) (ts measure : String)
    (useAvg : Bool) (malgs : List String) (t : Table) :
    (writeMeasure files ts measure useAvg malgs t).read (RESDIR ++ measure ++ EXTAGGRES)
      = some (((files.read (RESDIR ++ measure ++ EXTAGGRES)).getD "")
          ++ String.join (resChunks ts malgs useAvg t)) ∧
    (writeMeasure files ts measure useAvg malgs t).read (RESDIR ++ measure ++ EXTAGGRESEXT)
      = some (((files.read (RESDIR ++ measure ++ EXTAGGRESEXT)).getD "")
          ++ String.join (resxChunks
              ((files.read (RESDIR ++ measure ++ EXTAGGRESEXT)).getD "").isEmpty
              ts malgs useAvg t)) ∧
    (resxChunks true ts malgs useAvg t).head? = some fmtHeaderX ∧
    (resxChunks false ts malgs useAvg t).head? = some (tsLine ts) ∧
    (resChunks ts malgs useAvg t).head? = some (tsLine ts) := by
  refine ⟨?_, ?_, rfl, rfl, rfl⟩
  · unfold writeMeasure
    rw [read_writeApp_other _ _ _ _ (resfile_ne_resxfile measure),
      read_writeApp_self]
  · unfold writeMeasure
    rw [read_writeApp_self,
      read_writeApp_other _ _ _ _ (fun hh => resfile_ne_resxfile measure hh.symm)]

/-- Prior state for the C6 counterexample: the extended exec-time report
already holds earlier content, and one algorithm has a log. -/
def c6files : Files :=
  [("results/exectime.resx", "OLD\n"), (algesfileOf "a1", "1 1 1 1 1 n1\n")]

/-- C6 counterexample: with a previously *non-empty* extended report
file, the run still appends the shared timestamp header (only the
format-description header is suppressed) — refuting the claim that the
timestamp header is written only if the file was previously empty. -/
theorem aggexec_timestamp_always_written :
    ("OLD\n" : String) ≠ "" ∧
    ∃ fw, aggexec c6files "TS" ["a1"] = .ok fw ∧
      fw.1.read "results/exectime.resx"
        = some ("OLD\n" ++ tsLine "TS"
            ++ "n1\n\ta1>\ttotal: 1.000, per_item: 1.000000 (1.000000 .. 1.000000)\n") := by
  exact ⟨by decide, _, rfl, by decide⟩

/-! ## Claim C3: `preparePath` over an explicit directory filesystem

`preparePath` (benchapps.py:151) manipulates directories through
`os.path.exists`, `os.makedirs`, `os.mkdir` and the `benchutils`
helpers `dirempty`, `delPathSuffix` and `tobackup`.  The filesystem is
modelled as the sets of existing directory and file paths, a path being
its list of components. -/

/-- A filesystem path, as its components. -/
abbrev FPath := List String

/-- Directory-level filesystem state: the existing directories and
files; backup archives created by `tobackup` are files. -/
structure DirFS where
  dirs : List FPath
  files : List FPath
  deriving DecidableEq, Repr

namespace DirFS

/-- All existing paths. -/
def entries (fs : DirFS) : List FPath := fs.dirs ++ fs.files

/-- `os.path.exists`. -/
def pathExists (fs : DirFS) (p : FPath) : Bool := fs.entries.contains p

/-- Modelled from the spec: `dirempty` (benchutils) — the directory has
no entry strictly below it. -/
def dirempty (fs : DirFS) (p : FPath) : Bool :=
  fs.entries.all (fun q => !(p.isPrefixOf q && !(q == p)))

/-- `os.makedirs`: create the directory together with all missing
ancestor directories. -/
def makedirs (fs : DirFS) (p : FPath) : DirFS :=
  let missing := ((List.range p.length).map (fun i => p.take (i + 1))).filter
    (fun q => !(fs.entries.contains q))
  { fs with dirs := fs.dirs ++ missing }

/-- `os.mkdir`: create a single directory. -/
def mkdir (fs : DirFS) (p : FPath) : DirFS := { fs with dirs := fs.dirs ++ [p] }

end DirFS

/-- `delPathSuffix` applied to a whole path: the path-id suffix lives in
the last component (Modelled from the spec, see `delPathSuffixL`;
`preparePath` calls the one-argument form, which strips only the
path-id suffix). -/
def delPathSuffixP : FPath → FPath
  | [] => []
  | [c] => [String.mk (delPathSuffixL false c.data)]
  | c :: rest => c :: delPathSuffixP rest

/-- Whether `q` falls under the glob `base*` used by `tobackup` with
`expand = True`: the ancestor components coincide and the component at
the base's last level starts with the base's last component. -/
def matchesBase : FPath → FPath → Bool
  | [], _ => false
  | _ :: _, [] => false
  | b :: bs, qc :: qs =>
    if bs.isEmpty then b.data.isPrefixOf qc.data
    else b == qc && matchesBase bs qs

/-- Modelled from the spec: the name of the timestamped backup archive
`tobackup` creates for a base path — the base's last component extended
with the timestamp and the archive extension, a sibling of the base. -/
def bkName (ts : String) : FPath → FPath
  | [] => []
  | [c] => [c ++ "_" ++ ts ++ ".tar.xz"]
  | c :: rest => c :: bkName ts rest

/-- Modelled from the spec: `tobackup(mainpath, True, move=True)`
(benchutils) — move every entry matching the glob `mainpath*` (the
entire base subtree, same-base siblings included) into a timestamped
backup archive, removing the originals. -/
def tobackup (fs : DirFS) (base : FPath) (ts : String) : DirFS :=
  { dirs := fs.dirs.filter (fun q => !(matchesBase base q)),
    files := fs.files.filter (fun q => !(matchesBase base q)) ++ [bkName ts base] }

/-- `preparePath(taskpath)` (benchapps.py:151-170): create the path when
absent; when it exists non-empty, back up the whole base subtree (the
path with the path-id suffix stripped) and recreate the path; when it
exists empty, do nothing.  `ts` is the timestamp the backup name
embeds. -/
def preparePath (fs : DirFS) (taskpath : FPath) (ts : String) : DirFS :=
  if !(fs.pathExists taskpath) then fs.makedirs taskpath
  else if !(fs.dirempty taskpath) then
    let mainpath := delPathSuffixP taskpath
    DirFS.mkdir (tobackup fs mainpath ts) taskpath
  else fs

/-- Prefix-closedness of a filesystem: every proper ancestor of an
existing entry is an existing directory. -/
def wellformedB (fs : DirFS) : Bool :=
  fs.entries.all (fun q =>
    (List.range q.length).all (fun i => i == 0 || fs.dirs.contains (q.take i)))

/-- Stripping the path-id suffix preserves the number of components. -/
theorem length_delPathSuffixP : ∀ p : FPath, (delPathSuffixP p).length = p.length
  | [] => rfl
  | [_] => rfl
  | c :: d :: rest => by
    show (c :: delPathSuffixP (d :: rest)).length = _
    simp [length_delPathSuffixP (d :: rest)]

/-- The backup name has the same number of components as the base. -/
theorem length_bkName (ts : String) : ∀ p : FPath, (bkName ts p).length = p.length
  | [] => rfl
  | [_] => rfl
  | c :: d :: rest => by
    show (c :: bkName ts (d :: rest)).length = _
    simp [length_bkName ts (d :: rest)]

/-- Every extension of a path matches the glob of its own base. -/
theorem matchesBase_delPathSuffix :
    ∀ p : FPath, p ≠ [] → ∀ r, matchesBase (delPathSuffixP p) (p ++ r) = true
  | [], h, _ => absurd rfl h
  | [c], _, r => by
    show matchesBase [String.mk (delPathSuffixL false c.data)] (c :: r) = true
    simp only [matchesBase, List.isEmpty_nil, if_true]
    simp only [List.isPrefixOf_iff_prefix]
    exact List.takeWhile_prefix _
  | c :: d :: rest, _, r => by
    show matchesBase (c :: delPathSuffixP (d :: rest)) (c :: ((d :: rest) ++ r)) = true
    have hlen := length_delPathSuffixP (d :: rest)
    have hne : (delPathSuffixP (d :: rest)).isEmpty = false := by
      cases hh : delPathSuffixP (d :: rest) with
      | nil => rw [hh] at hlen; simp at hlen
      | cons x xs => rfl
    have hrec := matchesBase_delPathSuffix (d :: rest) (by simp) r
    simp only [List.cons_append] at hrec
    simp [matchesBase, hne, hrec]

/-- The head of a `dropWhile` residue falsifies the predicate. -/
theorem dropWhile_head_not (q : Char → Bool) :
    ∀ (l : List Char) (c : Char) (r : List Char), l.dropWhile q = c :: r → q c = false := by
  intro l
  induction l with
  | nil => intro c r h; cases h
  | cons a tl ih =>
    intro c r h
    rw [List.dropWhile_cons] at h
    split at h
    · exact ih c r h
    · rename_i hq
      cases h
      simpa using hq

/-- The timestamped backup archive never shares its name with the live
task path: its last component extends the stripped base with `'_'`,
while the stripped part of the live name is empty or starts with the
path-id separator `'#'`. -/
theorem bkName_delPathSuffixP_ne :
    ∀ p : FPath, p ≠ [] → ∀ ts : String, bkName ts (delPathSuffixP p) ≠ p
  | [], h, _ => absurd rfl h
  | [c], _, ts => by
    show [String.mk (delPathSuffixL false c.data) ++ "_" ++ ts ++ ".tar.xz"] ≠ [c]
    intro h
    have h1 : String.mk (delPathSuffixL false c.data) ++ "_" ++ ts ++ ".tar.xz" = c := by
      simpa using h
    have hdata := congrArg String.data h1
    rw [String.data_append, String.data_append, String.data_append] at hdata
    have hsplit : c.data
        = c.data.takeWhile (fun ch => !(sepChar false ch))
          ++ c.data.dropWhile (fun ch => !(sepChar false ch)) :=
      (List.takeWhile_append_dropWhile _ _).symm
    rw [show (String.mk (delPathSuffixL false c.data)).data
          = c.data.takeWhile (fun ch => !(sepChar false ch)) from rfl,
      List.append_assoc, List.append_assoc] at hdata
    nth_rewrite 2 [hsplit] at hdata
    have htail := List.append_cancel_left hdata
    rw [show ("_" : String).data = ['_'] from rfl] at htail
    have hhd := dropWhile_head_not (fun ch => !(sepChar false ch)) c.data '_' _ htail.symm
    simp [sepChar] at hhd
  | c :: d :: rest, _, ts => by
    intro heq
    obtain ⟨x, xs, hX⟩ : ∃ x xs, delPathSuffixP (d :: rest) = x :: xs := by
      cases hh : delPathSuffixP (d :: rest) with
      | nil =>
        have := length_delPathSuffixP (d :: rest)
        rw [hh] at this
        simp at this
      | cons x xs => exact ⟨x, xs, rfl⟩
    have hstep : delPathSuffixP (c :: d :: rest) = c :: x :: xs := by
      show c :: delPathSuffixP (d :: rest) = c :: x :: xs
      rw [hX]
    rw [hstep] at heq
    have heq' : bkName ts (x :: xs) = d :: rest := by
      have hred : bkName ts (c :: x :: xs) = c :: bkName ts (x :: xs) := rfl
      rw [hred] at heq
      exact (List.cons_eq_cons.1 heq).2
    rw [← hX] at heq'
    exact bkName_delPathSuffixP_ne (d :: rest) (by simp) ts heq'

/-- `pathExists` is membership in the entries. -/
theorem pathExists_iff (fs : DirFS) (p : FPath) :
    fs.pathExists p = true ↔ p ∈ fs.entries := by
  simp [DirFS.pathExists, List.contains, List.elem_iff]

/-- `dirempty` says no entry lies strictly below the path. -/
theorem dirempty_iff (fs : DirFS) (p : FPath) :
    fs.dirempty p = true ↔ ∀ q ∈ fs.entries, p <+: q → q = p := by
  unfold DirFS.dirempty
  rw [List.all_eq_true]
  refine forall_congr' fun q => imp_congr Iff.rfl ?_
  rw [Bool.not_eq_true', Bool.and_eq_false_iff]
  constructor
  · intro h hpre
    rcases h with h | h
    · have := List.isPrefixOf_iff_prefix.2 hpre
      rw [h] at this
      exact absurd this (by simp)
    · simpa using h
  · intro h
    by_cases hpre : p <+: q
    · right
      simp [h hpre]
    · left
      cases hT : List.isPrefixOf p q
      · rfl
      · exact absurd (List.isPrefixOf_iff_prefix.1 hT) hpre

/-- Unfolded form of `wellformedB`. -/
theorem wellformed_spec (fs : DirFS) (h : wellformedB fs = true) :
    ∀ q ∈ fs.entries, ∀ i, 0 < i → i < q.length → q.take i ∈ fs.dirs := by
  intro q hq i hi0 hlen
  have h1 := List.all_eq_true.1 h q hq
  have h2 := List.all_eq_true.1 h1 i (List.mem_range.2 hlen)
  simp only [Bool.or_eq_true, beq_iff_eq] at h2
  rcases h2 with h2 | h2
  · omega
  · simpa [List.contains, List.elem_iff] using h2

/-- C3: `preparePath(taskpath)` behaves as specified on every
filesystem: a missing path is created together with all missing
ancestors and is empty afterwards (in a prefix-closed filesystem); an
existing empty path is left exactly as it was, with no backup artifact;
an existing non-empty path has its base subtree (path-id suffix
stripped) moved into a timestamped backup artifact whose name differs
from the live path, after which the live path exists and is empty. -/
theorem preparePath_spec (fs : DirFS) (taskpath : FPath) (ts : String) :
    (fs.pathExists taskpath = false → wellformedB fs = true → taskpath ≠ [] →
      (preparePath fs taskpath ts).pathExists taskpath = true ∧
      (preparePath fs taskpath ts).dirempty taskpath = true ∧
      (∀ i ∈ List.range taskpath.length,
        (preparePath fs taskpath ts).pathExists (taskpath.take (i + 1)) = true) ∧
      (preparePath fs taskpath ts).files = fs.files) ∧
    (fs.pathExists taskpath = true → fs.dirempty taskpath = true →
      preparePath fs taskpath ts = fs) ∧
    (fs.pathExists taskpath = true → fs.dirempty taskpath = false → taskpath ≠ [] →
      (preparePath fs taskpath ts).pathExists taskpath = true ∧
      (preparePath fs taskpath ts).dirempty taskpath = true ∧
      bkName ts (delPathSuffixP taskpath) ≠ taskpath ∧
      (preparePath fs taskpath ts).files
        = fs.files.filter (fun q => !(matchesBase (delPathSuffixP taskpath) q))
          ++ [bkName ts (delPathSuffixP taskpath)] ∧
      (∀ q ∈ fs.entries, matchesBase (delPathSuffixP taskpath) q = true →
        q ∈ (preparePath fs taskpath ts).entries →
        q = taskpath ∨ q = bkName ts (delPathSuffixP taskpath))) := by
  refine ⟨fun hne0 hwf hnil => ?_, fun h1 h2 => ?_, fun h1 h2 hnil => ?_⟩
  · -- the path does not exist: makedirs
    have hpp : preparePath fs taskpath ts = fs.makedirs taskpath := by
      simp [preparePath, hne0]
    have hlen0 : 0 < taskpath.length := List.length_pos.2 hnil
    have hcont : fs.entries.contains taskpath = false := hne0
    have htp_mem : taskpath ∈ ((List.range taskpath.length).map
        (fun i => taskpath.take (i + 1))).filter (fun q => !(fs.entries.contains q)) := by
      refine List.mem_filter.2 ⟨List.mem_map.2 ⟨taskpath.length - 1, ?_, ?_⟩, ?_⟩
      · exact List.mem_range.2 (by omega)
      · rw [show taskpath.length - 1 + 1 = taskpath.length by omega, List.take_length]
      · rw [hcont]
        rfl
    have hsub : ∀ x ∈ fs.entries, x ∈ (fs.makedirs taskpath).entries := by
      intro x hx
      rcases List.mem_append.1 hx with hx | hx
      · exact List.mem_append.2 (Or.inl (List.mem_append.2 (Or.inl hx)))
      · exact List.mem_append.2 (Or.inr hx)
    refine ⟨?_, ?_, ?_, by rw [hpp]; rfl⟩
    · rw [hpp, pathExists_iff]
      exact List.mem_append.2 (Or.inl (List.mem_append.2 (Or.inr htp_mem)))
    · rw [hpp, dirempty_iff]
      intro q hq hpre
      have htake : taskpath = q.take taskpath.length := List.prefix_iff_eq_take.1 hpre
      rcases List.mem_append.1 hq with hq1 | hqf
      · rcases List.mem_append.1 hq1 with hqd | hqm
        · -- an old directory
          by_contra hne
          have hlt : taskpath.length < q.length := by
            have hle := hpre.length_le
            rcases Nat.lt_or_ge taskpath.length q.length with h | h
            · exact h
            · exfalso
              apply hne
              have hql : taskpath.length = q.length := Nat.le_antisymm hle h
              rw [htake, hql, List.take_length]
          have hmemd := wellformed_spec fs hwf q (List.mem_append.2 (Or.inl hqd))
            taskpath.length hlen0 hlt
          rw [← htake] at hmemd
          have : fs.pathExists taskpath = true :=
            (pathExists_iff fs taskpath).2 (List.mem_append.2 (Or.inl hmemd))
          rw [hne0] at this
          cases this
        · -- a freshly created ancestor of the path
          obtain ⟨i, hir, hqi⟩ := List.mem_map.1 (List.mem_filter.1 hqm).1
          have hir' := List.mem_range.1 hir
          have hqlen : q.length = i + 1 := by
            rw [← hqi, List.length_take]
            omega
          have hle := hpre.length_le
          have hql : taskpath.length = q.length := by omega
          rw [htake, hql, List.take_length]
      · -- an old file
        by_contra hne
        have hlt : taskpath.length < q.length := by
          have hle := hpre.length_le
          rcases Nat.lt_or_ge taskpath.length q.length with h | h
          · exact h
          · exfalso
            apply hne
            have hql : taskpath.length = q.length := Nat.le_antisymm hle h
            rw [htake, hql, List.take_length]
        have hmemd := wellformed_spec fs hwf q (List.mem_append.2 (Or.inr hqf))
          taskpath.length hlen0 hlt
        rw [← htake] at hmemd
        have : fs.pathExists taskpath = true :=
          (pathExists_iff fs taskpath).2 (List.mem_append.2 (Or.inl hmemd))
        rw [hne0] at this
        cases this
    · intro i hi
      rw [hpp, pathExists_iff]
      cases hc : fs.entries.contains (taskpath.take (i + 1)) with
      | true =>
        have hmem : taskpath.take (i + 1) ∈ fs.entries := by
          simpa [List.contains, List.elem_iff] using hc
        exact hsub _ hmem
      | false =>
        refine List.mem_append.2 (Or.inl (List.mem_append.2 (Or.inr ?_)))
        refine List.mem_filter.2 ⟨List.mem_map.2 ⟨i, hi, rfl⟩, ?_⟩
        rw [hc]
        rfl
  · -- the path exists and is empty: no change
    simp [preparePath, h1, h2]
  · -- the path exists and is non-empty: backup, then recreate
    have hpp : preparePath fs taskpath ts
        = DirFS.mkdir (tobackup fs (delPathSuffixP taskpath) ts) taskpath := by
      simp [preparePath, h1, h2]
    refine ⟨?_, ?_, bkName_delPathSuffixP_ne taskpath hnil ts, by rw [hpp]; rfl, ?_⟩
    · rw [hpp, pathExists_iff]
      simp [DirFS.mkdir, tobackup, DirFS.entries]
    · rw [hpp, dirempty_iff]
      intro q hq hpre
      have htake : taskpath = q.take taskpath.length := List.prefix_iff_eq_take.1 hpre
      obtain ⟨r, hr⟩ := hpre
      simp only [DirFS.mkdir, tobackup, DirFS.entries, List.mem_append,
        List.mem_filter, List.mem_singleton] at hq
      rcases hq with (⟨_, hpred⟩ | hq) | (⟨_, hpred⟩ | hq)
      · exfalso
        rw [← hr, matchesBase_delPathSuffix taskpath hnil r] at hpred
        cases hpred
      · exact hq
      · exfalso
        rw [← hr, matchesBase_delPathSuffix taskpath hnil r] at hpred
        cases hpred
      · have hql : q.length = taskpath.length := by
          rw [hq, length_bkName, length_delPathSuffixP]
        rw [htake, ← hql, List.take_length]
    · intro q _ hmatch hq'
      rw [hpp] at hq'
      simp only [DirFS.mkdir, tobackup, DirFS.entries, List.mem_append,
        List.mem_filter, List.mem_singleton] at hq'
      rcases hq' with (⟨_, hpred⟩ | hq') | (⟨_, hpred⟩ | hq')
      · rw [hmatch] at hpred
        cases hpred
      · exact Or.inl hq'
      · rw [hmatch] at hpred
        cases hpred
      · exact Or.inr hq'

/-- C3 witness: creating a missing four-level results path leaves it
existing and empty; preparing an existing empty directory changes
nothing; preparing an existing non-empty task directory leaves it
existing and empty with a backup artifact named differently. -/
theorem preparePath_spec_witness :
    ((preparePath ⟨[], []⟩ ["results", "Scp", "clusters", "1K10!k3#1"] "T").pathExists
        ["results", "Scp", "clusters", "1K10!k3#1"] = true ∧
      (preparePath ⟨[], []⟩ ["results", "Scp", "clusters", "1K10!k3#1"] "T").dirempty
        ["results", "Scp", "clusters", "1K10!k3#1"] = true) ∧
    preparePath ⟨[["a"]], []⟩ ["a"] "T" = ⟨[["a"]], []⟩ ∧
    ((preparePath ⟨[["r"], ["r", "t1#1"], ["r", "t1#1", "sub"]], []⟩ ["r", "t1#1"] "T").pathExists
        ["r", "t1#1"] = true ∧
      (preparePath ⟨[["r"], ["r", "t1#1"], ["r", "t1#1", "sub"]], []⟩ ["r", "t1#1"] "T").dirempty
        ["r", "t1#1"] = true ∧
      bkName "T" (delPathSuffixP ["r", "t1#1"]) ≠ ["r", "t1#1"]) := by
  have ha := (preparePath_spec ⟨[], []⟩ ["results", "Scp", "clusters", "1K10!k3#1"] "T").1
    (by decide) (by decide) (by decide)
  have hb := (preparePath_spec ⟨[["a"]], []⟩ ["a"] "T").2.1 (by decide) (by decide)
  have hc := (preparePath_spec ⟨[["r"], ["r", "t1#1"], ["r", "t1#1", "sub"]], []⟩
    ["r", "t1#1"] "T").2.2 (by decide) (by decide) (by decide)
  exact ⟨⟨ha.1, ha.2.1⟩, hb, hc.1, hc.2.1, hc.2.2.1⟩

end Benchapps
